import Mathlib

/-!
Verification of the fund-agent quantitative core against its specification.

The development shallowly embeds the three analytic components of the
repository — the metrics engine (`tools/metrics_engine.py`), the tax-lot
matcher (`tools/tax_engine.py`) and the overlap analyzer
(`tools/overlap_engine.py`) — and proves the spec's claims about them.

Modelling conventions:
* currency amounts, units and NAVs are exact rationals (`ℚ`); the CAGR
  formula, which takes a real power, is stated over `ℝ`;
* calendar dates are integers counting days (Python `date` subtraction
  yields exactly the day difference);
* string identifiers (folio numbers, scheme codes, ISINs) are modelled as
  naturals: only equality and a total order on them are ever used
  (pandas `groupby` sorts string keys; the model sorts the identifier
  type by its linear order);
* fallible code returns `Except CoreError`.
-/

namespace FundAgent

/-- Error kinds of the core, from §7 of the spec: `InvalidInputError` for
out-of-domain input to a pure function (Python raises `ValueError`),
`InsufficientLotsError` when a redemption cannot be fully matched,
carrying the (folio, scheme) key and the unmatched quantity. -/
inductive CoreError where
  | invalidInput (msg : String)
  | insufficientLots (folio scheme : ℕ) (unmatched : ℚ)
deriving DecidableEq

/-! ### tax_engine.py — constants and pure functions -/

/-- Constant `LTCG_EQUITY_THRESHOLD = 125_000` (₹1.25 lakh exemption). -/
def LTCG_EQUITY_THRESHOLD : ℚ := 125000

/-- Constant `LTCG_EQUITY_RATE = 0.125` (12.5%). -/
def LTCG_EQUITY_RATE : ℚ := 125 / 1000

/-- Constant `STCG_EQUITY_RATE = 0.20` (20%). -/
def STCG_EQUITY_RATE : ℚ := 20 / 100

/-- Constant `EQUITY_HOLDING_THRESHOLD_DAYS = 365`. -/
def EQUITY_HOLDING_THRESHOLD_DAYS : ℤ := 365

/-- Function `classify_holding(purchase_date, redemption_date, is_equity)` from
`tools/tax_engine.py`: the holding period in days is the date difference;
equity funds are `LTCG` when held at least 365 days, otherwise `STCG`;
non-equity (debt) funds are always `STCG`. -/
def classify_holding (purchase_date redemption_date : ℤ) ( is_equity : Bool) : String :=
  let holding_days := redemption_date - purchase_date
  if is_equity then
    if EQUITY_HOLDING_THRESHOLD_DAYS ≤ holding_days then "LTCG" else "STCG"
  else "STCG"

/-- Result record of `compute_equity_tax` (the Python function returns a
dict with exactly these six keys). -/
structure EquityTaxResult where
  ltcg_total : ℚ
  ltcg_taxable : ℚ
  ltcg_tax : ℚ
  stcg_total : ℚ
  stcg_tax : ℚ
  total_tax : ℚ
deriving DecidableEq

/-- Function `compute_equity_tax(ltcg_total, stcg_total)` from `tools/tax_engine.py`:
LTCG taxable amount is clamped at zero after subtracting the exemption
threshold; STCG is taxed flat with no clamping. -/
def compute_equity_tax (ltcg_total stcg_total : ℚ) : EquityTaxResult :=
  let ltcg_taxable := max 0 (ltcg_total - LTCG_EQUITY_THRESHOLD)
  let ltcg_tax := ltcg_taxable * LTCG_EQUITY_RATE
  let stcg_tax := stcg_total * STCG_EQUITY_RATE
  { ltcg_total := ltcg_total
    ltcg_taxable := ltcg_taxable
    ltcg_tax := ltcg_tax
    stcg_total := stcg_total
    stcg_tax := stcg_tax
    total_tax := ltcg_tax + stcg_tax }

/-! ### Claims C7 and C10 -/

/-- C7: `classify_holding` returns `"LTCG"` exactly when the fund is equity
and the holding period is at least 365 days, and `"STCG"` otherwise; an
equity holding of exactly 364 days is STCG, exactly 365 days is LTCG, and a
non-equity (debt) fund is STCG for any holding duration. -/
theorem classify_holding_spec :
    (∀ (p r : ℤ) (e : Bool),
      (classify_holding p r e = "LTCG" ↔ (e = true ∧ 365 ≤ r - p)) ∧
      (classify_holding p r e = "LTCG" ∨ classify_holding p r e = "STCG")) ∧
    (∀ p : ℤ, classify_holding p (p + 364) true = "STCG") ∧
    (∀ p : ℤ, classify_holding p (p + 365) true = "LTCG") ∧
    (∀ p r : ℤ, classify_holding p r false = "STCG") := by
  have hSL : ¬ ("STCG" : String) = "LTCG" := by decide
  refine ⟨fun p r e => ⟨?_, ?_⟩, fun p => ?_, fun p => ?_, fun p r => ?_⟩
  · cases e
    · simp [classify_holding, hSL]
    · simp only [classify_holding, EQUITY_HOLDING_THRESHOLD_DAYS, if_true]
      split
      · simp_all
      · simp_all
  · cases e
    · simp [classify_holding]
    · simp only [classify_holding, EQUITY_HOLDING_THRESHOLD_DAYS, if_true]
      split
      · exact Or.inl rfl
      · exact Or.inr rfl
  · simp only [classify_holding, EQUITY_HOLDING_THRESHOLD_DAYS, if_true]
    have h : ¬ (365 : ℤ) ≤ p + 364 - p := by omega
    simp [h]
  · simp only [classify_holding, EQUITY_HOLDING_THRESHOLD_DAYS, if_true]
    have h : (365 : ℤ) ≤ p + 365 - p := by omega
    simp [h]
  · simp [classify_holding]

/-- C10: for every `ltcg_total` and `stcg_total` (including negative values),
`compute_equity_tax` clamps `ltcg_taxable` at `max 0 (ltcg_total − 125000)`,
so `ltcg_tax = 0.125 · ltcg_taxable` is never negative; `stcg_tax = 0.20 ·
stcg_total` is not clamped and is negative whenever `stcg_total` is
negative; and `total_tax` is exactly `ltcg_tax + stcg_tax`. -/
theorem compute_equity_tax_spec (l s : ℚ) :
    (compute_equity_tax l s).ltcg_taxable = max 0 (l - 125000) ∧
    (compute_equity_tax l s).ltcg_tax = max 0 (l - 125000) * (125 / 1000) ∧
    0 ≤ (compute_equity_tax l s).ltcg_tax ∧
    (compute_equity_tax l s).stcg_tax = s * (20 / 100) ∧
    (s < 0 → (compute_equity_tax l s).stcg_tax < 0) ∧
    (compute_equity_tax l s).total_tax =
      (compute_equity_tax l s).ltcg_tax + (compute_equity_tax l s).stcg_tax := by
  refine ⟨rfl, rfl, ?_, rfl, ?_, rfl⟩
  · exact mul_nonneg (le_max_left 0 _) (by norm_num [LTCG_EQUITY_RATE])
  · intro hs
    have : (0 : ℚ) < 20 / 100 := by norm_num
    simpa [compute_equity_tax, STCG_EQUITY_RATE] using mul_neg_of_neg_of_pos hs this

/-- Witness for C10 at a concrete input with a negative STCG total. -/
theorem compute_equity_tax_spec_witness :
    (-1 : ℚ) < 0 ∧ (compute_equity_tax 200000 (-1)).stcg_tax < 0 :=
  ⟨by norm_num, (compute_equity_tax_spec 200000 (-1)).2.2.2.2.1 (by norm_num)⟩

/-! ### metrics_engine.py — compute_beta

`compute_beta(fund_returns, benchmark_returns)` computes
`fund_returns.cov(benchmark_returns) / benchmark_returns.var(ddof=1)`,
returning `0.0` when the benchmark variance is zero.  pandas `Series.cov`
aligns the two series positionally (default integer index) and computes the
sample covariance over the aligned pairs with means taken over those pairs;
`Series.var(ddof=1)` is the sample variance of the full series.  There is
no length check anywhere in the function. -/

/-- Mean of a list of rationals (`sum / length`; `0` for the empty list,
matching the `0/0 = 0` convention of `ℚ`). -/
def listMean (xs : List ℚ) : ℚ := xs.sum / xs.length

/-- Sample variance with `ddof=1` (denominator `n − 1`), as computed by
`benchmark_returns.var(ddof=1)`. -/
def sampleVar (xs : List ℚ) : ℚ :=
  ((xs.map (fun x => (x - listMean xs) ^ 2)).sum) / ((xs.length : ℚ) - 1)

/-- Sample covariance over positionally aligned pairs with `n − 1`
denominator, as computed by `fund_returns.cov(benchmark_returns)` on
default-indexed series. -/
def sampleCov (xs ys : List ℚ) : ℚ :=
  let ps := xs.zip ys
  let mx := listMean (ps.map Prod.fst)
  let my := listMean (ps.map Prod.snd)
  ((ps.map (fun p => (p.1 - mx) * (p.2 - my))).sum) / ((ps.length : ℚ) - 1)

/-- Function `compute_beta(fund_returns, benchmark_returns)` from
`tools/metrics_engine.py`. -/
def compute_beta (fund_returns benchmark_returns : List ℚ) : ℚ :=
  let cov := sampleCov fund_returns benchmark_returns
  let var := sampleVar benchmark_returns
  if var = 0 then 0 else cov / var

theorem zip_self_map (xs : List ℚ) (f : ℚ → ℚ → ℚ) :
    (xs.zip xs).map (fun p => f p.1 p.2) = xs.map (fun a => f a a) := by
  induction xs with
  | nil => rfl
  | cons x xs ih => simp [List.zip_cons_cons, ih]

theorem sampleCov_self (xs : List ℚ) : sampleCov xs xs = sampleVar xs := by
  have hfst : (xs.zip xs).map Prod.fst = xs := List.map_fst_zip xs xs le_rfl
  have hsnd : (xs.zip xs).map Prod.snd = xs := List.map_snd_zip xs xs le_rfl
  have hlen : (xs.zip xs).length = xs.length := by
    simp [List.length_zip]
  have hmap : (xs.zip xs).map
      (fun p => (p.1 - listMean xs) * (p.2 - listMean xs)) =
      xs.map (fun x => (x - listMean xs) ^ 2) := by
    rw [zip_self_map xs (fun a b => (a - listMean xs) * (b - listMean xs))]
    apply List.map_congr_left
    intro a _
    ring
  simp only [sampleCov, sampleVar, hfst, hsnd, hlen, hmap]

/-- C4 (amended): `compute_beta` performs no length validation; for any two
series it returns the positionally aligned sample covariance divided by the
sample (`n−1`) variance of the benchmark, and `0.0` when that variance is
zero.  For equal-length series the covariance uses each full series' mean,
and a series regressed on itself has beta exactly `1`. -/
theorem compute_beta_spec (fund bench : List ℚ) :
    (sampleVar bench = 0 → compute_beta fund bench = 0) ∧
    (sampleVar bench ≠ 0 → fund.length = bench.length →
      compute_beta fund bench =
        (((fund.zip bench).map
            (fun p => (p.1 - listMean fund) * (p.2 - listMean bench))).sum
          / ((bench.length : ℚ) - 1)) / sampleVar bench) ∧
    (sampleVar fund ≠ 0 → compute_beta fund fund = 1) := by
  refine ⟨fun h => ?_, fun h hlen => ?_, fun h => ?_⟩
  · simp [compute_beta, h]
  · have hfst : (fund.zip bench).map Prod.fst = fund := List.map_fst_zip fund bench hlen.le
    have hsnd : (fund.zip bench).map Prod.snd = bench := List.map_snd_zip fund bench hlen.ge
    have hl : (fund.zip bench).length = bench.length := by
      simp [List.length_zip, hlen]
    simp only [compute_beta, if_neg h, sampleCov, hfst, hsnd, hl]
  · simp only [compute_beta, sampleCov_self, if_neg h]
    exact div_self h

/-- Witness for C4's amended theorem: a self-regression with nonzero
variance has beta `1`. -/
theorem compute_beta_spec_witness :
    sampleVar [(1 : ℚ), 2] ≠ 0 ∧ compute_beta [(1 : ℚ), 2] [(1 : ℚ), 2] = 1 := by
  have h : sampleVar [(1 : ℚ), 2] ≠ 0 := by
    norm_num [sampleVar, listMean]
  exact ⟨h, (compute_beta_spec [(1 : ℚ), 2] [(1 : ℚ), 2]).2.2 h⟩

/-- C4, counterexample to the claim as stated: series of unequal lengths are
not rejected — `compute_beta([0, 1], [0, 2, 4])` computes normally (pandas
aligns the first two positions; the benchmark variance uses all three
points), returning `1/4` instead of failing with `InvalidInputError`. -/
theorem compute_beta_unequal_length_counterexample :
    compute_beta [(0 : ℚ), 1] [(0 : ℚ), 2, 4] = 1 / 4 := by
  norm_num [compute_beta, sampleCov, sampleVar, listMean, List.zip_cons_cons]

/-! ### metrics_engine.py — compute_max_drawdown

`compute_max_drawdown(nav_series)` computes `rolling_max = nav_series.cummax()`,
`drawdown = (nav_series - rolling_max) / rolling_max` and returns
`drawdown.min()` (`none` for an empty series, where pandas yields NaN). -/

/-- Helper for `cummax`: running maxima of `xs` after seeing maximum `m`. -/
def cummaxAux (m : ℚ) : List ℚ → List ℚ
  | [] => []
  | x :: xs => max m x :: cummaxAux (max m x) xs

/-- Pandas `nav_series.cummax()`: elementwise running maximum to date. -/
def cummax : List ℚ → List ℚ
  | [] => []
  | x :: xs => x :: cummaxAux x xs

/-- Function `compute_max_drawdown(nav_series)` from `tools/metrics_engine.py`. -/
def compute_max_drawdown (nav_series : List ℚ) : Option ℚ :=
  (List.zipWith (fun p m => (p - m) / m) nav_series (cummax nav_series)).min?

/-- Maximum of a list (`0` for the empty list; used only on nonempty
lists). -/
def listMax : List ℚ → ℚ
  | [] => 0
  | x :: xs => xs.foldl max x

theorem cummaxAux_length (m : ℚ) (xs : List ℚ) :
    (cummaxAux m xs).length = xs.length := by
  induction xs generalizing m with
  | nil => rfl
  | cons x xs ih => simp [cummaxAux, ih]

theorem cummax_length (xs : List ℚ) : (cummax xs).length = xs.length := by
  cases xs with
  | nil => rfl
  | cons x xs => simp [cummax, cummaxAux_length]

theorem cummaxAux_get (xs : List ℚ) (m : ℚ) (i : ℕ)
    (h : i < (cummaxAux m xs).length) :
    (cummaxAux m xs).get ⟨i, h⟩ = (xs.take (i + 1)).foldl max m := by
  induction xs generalizing m i with
  | nil => simp [cummaxAux_length] at h
  | cons x xs ih =>
    cases i with
    | zero => simp [cummaxAux]
    | succ i =>
      have h2 : i < (cummaxAux (max m x) xs).length := by
        simpa [cummaxAux] using h
      simpa [cummaxAux, List.take_succ_cons] using ih (max m x) i h2

theorem cummax_get (xs : List ℚ) (i : ℕ) (h : i < (cummax xs).length) :
    (cummax xs).get ⟨i, h⟩ = listMax (xs.take (i + 1)) := by
  cases xs with
  | nil => simp [cummax] at h
  | cons x xs =>
    cases i with
    | zero => simp [cummax, listMax]
    | succ i =>
      have h2 : i < (cummaxAux x xs).length := by
        simpa [cummax] using h
      have := cummaxAux_get xs x i h2
      simpa [cummax, listMax, List.take_succ_cons] using this

theorem qmin_spec {l : List ℚ} {d : ℚ} (h : l.min? = some d) :
    d ∈ l ∧ ∀ b ∈ l, d ≤ b := by
  haveI : Std.Antisymm (fun a b : ℚ => a ≤ b) := ⟨fun ha hb => le_antisymm ha hb⟩
  exact (List.min?_eq_some_iff (fun a => le_refl a) (fun a b => min_choice a b)
    (fun a b c => le_min_iff)).mp h

/-- C9: for every non-empty price series `compute_max_drawdown` returns the
minimum over all points of `(price − running_max_to_date)/running_max_to_date`
(a value attained at some point and a lower bound of every point's drawdown),
and this result is always `≤ 0`; for `[100,110,90,95,80,100]` it is exactly
`(80−110)/110 = −3/11 ≈ −0.2727`. -/
theorem compute_max_drawdown_spec :
    (∀ nav : List ℚ, nav ≠ [] →
      ∃ d, compute_max_drawdown nav = some d ∧ d ≤ 0 ∧
        (∀ i (hi : i < nav.length),
          d ≤ (nav.get ⟨i, hi⟩ - listMax (nav.take (i + 1)))
              / listMax (nav.take (i + 1))) ∧
        (∃ i, ∃ hi : i < nav.length,
          d = (nav.get ⟨i, hi⟩ - listMax (nav.take (i + 1)))
              / listMax (nav.take (i + 1)))) ∧
    compute_max_drawdown [100, 110, 90, 95, 80, 100] = some (-(3 / 11)) := by
  constructor
  · intro nav hnav
    set f : ℚ → ℚ → ℚ := fun p m => (p - m) / m with hf
    set dd := List.zipWith f nav (cummax nav) with hdd
    have hddlen : dd.length = nav.length := by
      simp [hdd, List.length_zipWith, cummax_length]
    have hddne : dd ≠ [] := by
      intro h0
      apply hnav
      have := hddlen
      rw [h0] at this
      exact List.length_eq_zero.mp this.symm
    obtain ⟨d, hd⟩ : ∃ d, dd.min? = some d := by
      cases h0 : dd.min? with
      | none => exact absurd (List.min?_eq_none_iff.mp h0) hddne
      | some d => exact ⟨d, rfl⟩
    obtain ⟨hmem, hle⟩ := qmin_spec hd
    have hget : ∀ i (hi : i < dd.length),
        dd.get ⟨i, hi⟩ = (nav.get ⟨i, by omega⟩ - listMax (nav.take (i + 1)))
          / listMax (nav.take (i + 1)) := by
      intro i hi
      have hi2 : i < nav.length := by omega
      have hi3 : i < (cummax nav).length := by rw [cummax_length]; omega
      have hz : dd.get ⟨i, hi⟩ = f (nav.get ⟨i, hi2⟩) ((cummax nav).get ⟨i, hi3⟩) := by
        simp [hdd, List.get_eq_getElem, List.getElem_zipWith]
      rw [hz, cummax_get nav i hi3]
    refine ⟨d, hd, ?_, ?_, ?_⟩
    · -- the first drawdown is 0, so the minimum is ≤ 0
      obtain ⟨x, rest, rfl⟩ := List.exists_cons_of_ne_nil hnav
      have h0mem : (0 : ℚ) ∈ dd := by
        have : dd = f x x :: List.zipWith f rest (cummaxAux x rest) := by
          simp [hdd, cummax]
        rw [this]
        have : f x x = 0 := by simp [hf]
        rw [this]
        exact List.mem_cons_self _ _
      exact hle 0 h0mem
    · intro i hi
      have hi2 : i < dd.length := by omega
      have := hle (dd.get ⟨i, hi2⟩) (List.get_mem dd i hi2)
      rwa [hget i hi2] at this
    · obtain ⟨⟨i, hi⟩, hig⟩ := List.mem_iff_get.mp hmem
      refine ⟨i, by omega, ?_⟩
      rw [← hig, hget i hi]
  · norm_num [compute_max_drawdown, cummax, cummaxAux, List.min?_cons, min_def, max_def]

/-- Witness for C9 at the spec's concrete series. -/
theorem compute_max_drawdown_spec_witness :
    ∃ d, compute_max_drawdown [100, 110, 90, 95, 80, 100] = some d ∧ d ≤ 0 :=
  match compute_max_drawdown_spec.1 [100, 110, 90, 95, 80, 100] (by simp) with
  | ⟨d, h1, h2, _, _⟩ => ⟨d, h1, h2⟩

/-! ### overlap_engine.py — compute_pairwise_overlap

`compute_pairwise_overlap(composition_records)` returns `[]` for an empty
input; otherwise it groups records by `scheme_code` (pandas `groupby`
sorts the keys), builds for each fund the dict `isin → weight_pct` (later
records overwrite earlier ones for the same isin), and for every
combination of two funds (in sorted key order) emits one record with the
Jaccard overlap of the ISIN sets, the sum over the intersection of the
minimum weights, and the intersection size.  Scheme codes and ISINs are
modelled as naturals (see the header). -/

/-- One holdings record: `scheme_code`, `isin`, `weight_pct`. -/
structure HoldingRec where
  scheme_code : ℕ
  isin : ℕ
  weight_pct : ℚ

/-- One output record of `compute_pairwise_overlap`. -/
structure OverlapRecord where
  fund_a : ℕ
  fund_b : ℕ
  jaccard_overlap : ℚ
  weighted_overlap_pct : ℚ
  common_stocks : ℕ

/-- Python `round(x, 4)`: rounding to 4 decimal places (the tie-breaking
convention is immaterial to the claims checked here). -/
def round4 (q : ℚ) : ℚ := (round (q * 10000) : ℤ) / 10000

/-- The distinct scheme codes of the input in ascending order: pandas
`groupby("scheme_code")` iterates groups in sorted key order. -/
def fundCodes (recs : List HoldingRec) : List ℕ :=
  List.insertionSort (· ≤ ·) ((recs.map (·.scheme_code)).dedup)

/-- The ISIN key set of one fund's holdings dict (duplicate isins collapse,
as in `dict(zip(...))`). -/
def fundIsins (recs : List HoldingRec) (c : ℕ) : List ℕ :=
  ((recs.filter (fun r => r.scheme_code = c)).map (·.isin)).dedup

/-- Python `fund_holdings[c].get(i, 0)`: the weight the holdings dict of fund `c`
assigns to isin `i` (the last record wins, as in `dict(zip(...))`), `0`
when absent. -/
def fundWeight (recs : List HoldingRec) (c i : ℕ) : ℚ :=
  match (recs.filter (fun r => r.scheme_code = c)).reverse.find? (fun r => r.isin = i) with
  | some r => r.weight_pct
  | none => 0

/-- Python `itertools.combinations(l, 2)`: all pairs `(l[i], l[j])` with `i < j`. -/
def listPairs {α : Type} : List α → List (α × α)
  | [] => []
  | x :: xs => (xs.map (fun y => (x, y))) ++ listPairs xs

/-- The overlap record for one pair of funds. -/
def mkOverlap (recs : List HoldingRec) (p : ℕ × ℕ) : OverlapRecord :=
  let A := fundIsins recs p.1
  let B := fundIsins recs p.2
  let inter := A.filter (fun i => i ∈ B)
  let uni := (A ++ B).dedup
  let jaccard : ℚ := if uni.length = 0 then 0 else (inter.length : ℚ) / uni.length
  let weighted := (inter.map (fun i => min (fundWeight recs p.1 i) (fundWeight recs p.2 i))).sum
  { fund_a := p.1
    fund_b := p.2
    jaccard_overlap := round4 jaccard
    weighted_overlap_pct := round4 weighted
    common_stocks := inter.length }

/-- Function `compute_pairwise_overlap(composition_records)` from
`tools/overlap_engine.py`. -/
def compute_pairwise_overlap (recs : List HoldingRec) : List OverlapRecord :=
  if recs.isEmpty then []
  else (listPairs (fundCodes recs)).map (mkOverlap recs)

theorem listPairs_mem_parts {α : Type} :
    ∀ {l : List α} {p : α × α}, p ∈ listPairs l → p.1 ∈ l ∧ p.2 ∈ l := by
  intro l
  induction l with
  | nil => intro p h; simp [listPairs] at h
  | cons x xs ih =>
    intro p h
    rcases List.mem_append.mp h with h1 | h2
    · obtain ⟨y, hy, rfl⟩ := List.mem_map.mp h1
      exact ⟨List.mem_cons_self x xs, List.mem_cons_of_mem x hy⟩
    · obtain ⟨h3, h4⟩ := ih h2
      exact ⟨List.mem_cons_of_mem x h3, List.mem_cons_of_mem x h4⟩

theorem listPairs_lt {l : List ℕ} (hs : l.Sorted (· < ·)) :
    ∀ p ∈ listPairs l, p.1 < p.2 := by
  induction l with
  | nil => intro p h; simp [listPairs] at h
  | cons x xs ih =>
    intro p h
    obtain ⟨hx, hxs⟩ := List.sorted_cons.mp hs
    rcases List.mem_append.mp h with h1 | h2
    · obtain ⟨y, hy, rfl⟩ := List.mem_map.mp h1
      exact hx y hy
    · exact ih hxs p h2

theorem listPairs_mem_of_lt :
    ∀ {l : List ℕ}, l.Sorted (· < ·) →
      ∀ {a b : ℕ}, a ∈ l → b ∈ l → a < b → (a, b) ∈ listPairs l := by
  intro l
  induction l with
  | nil => intro _ a b ha; simp at ha
  | cons x xs ih =>
    intro hs a b ha hb hab
    obtain ⟨hx, hxs⟩ := List.sorted_cons.mp hs
    rcases List.mem_cons.mp ha with rfl | ha2
    · rcases List.mem_cons.mp hb with rfl | hb2
      · exact absurd hab (lt_irrefl _)
      · exact List.mem_append.mpr (Or.inl (List.mem_map.mpr ⟨b, hb2, rfl⟩))
    · rcases List.mem_cons.mp hb with rfl | hb2
      · exact absurd (lt_trans (hx a ha2) hab) (lt_irrefl _)
      · exact List.mem_append.mpr (Or.inr (ih hxs ha2 hb2 hab))

theorem listPairs_nodup {α : Type} [DecidableEq α] :
    ∀ {l : List α}, l.Nodup → (listPairs l).Nodup := by
  intro l
  induction l with
  | nil => intro _; simp [listPairs]
  | cons x xs ih =>
    intro h
    obtain ⟨hx, hxs⟩ := List.nodup_cons.mp h
    refine List.Nodup.append ?_ (ih hxs) ?_
    · exact hxs.map (fun a b hab => congrArg Prod.snd hab)
    · rw [List.disjoint_left]
      intro p hp1 hp2
      obtain ⟨y, hy, rfl⟩ := List.mem_map.mp hp1
      exact hx ((listPairs_mem_parts hp2).1)

theorem fundCodes_sorted (recs : List HoldingRec) :
    (fundCodes recs).Sorted (· < ·) := by
  have hnd : (fundCodes recs).Nodup :=
    (List.perm_insertionSort (· ≤ ·) _).symm.nodup (List.nodup_dedup _)
  exact (List.sorted_insertionSort (· ≤ ·) _).lt_of_le hnd

theorem fundCodes_nodup (recs : List HoldingRec) : (fundCodes recs).Nodup :=
  (List.perm_insertionSort (· ≤ ·) _).symm.nodup (List.nodup_dedup _)

theorem mem_fundCodes {recs : List HoldingRec} {c : ℕ} :
    c ∈ fundCodes recs ↔ c ∈ recs.map (·.scheme_code) := by
  unfold fundCodes
  rw [(List.perm_insertionSort (· ≤ ·) _).mem_iff, List.mem_dedup]

theorem countP_eq_one_of_nodup_mem {α : Type} [DecidableEq α] :
    ∀ {l : List α}, l.Nodup → ∀ {x : α}, x ∈ l →
      l.countP (fun y => decide (y = x)) = 1 := by
  intro l
  induction l with
  | nil => intro _ x hx; simp at hx
  | cons z zs ih =>
    intro h x hx
    obtain ⟨hz, hzs⟩ := List.nodup_cons.mp h
    rcases List.mem_cons.mp hx with rfl | hx2
    · rw [List.countP_cons_of_pos _ _ (by simp)]
      have h0 : zs.countP (fun y => decide (y = x)) = 0 := by
        rw [List.countP_eq_zero]
        intro y hy
        simp only [decide_eq_true_eq]
        exact fun hyx => hz (hyx ▸ hy)
      omega
    · rw [List.countP_cons_of_neg]
      · exact ih hzs hx2
      · simp only [decide_eq_true_eq]
        exact fun h2 => hz (h2 ▸ hx2)

theorem countP_listPairs_eq_one {codes : List ℕ}
    (hslt : codes.Sorted (· < ·)) (hnd : codes.Nodup) {a b : ℕ}
    (ha : a ∈ codes) (hb : b ∈ codes) (hab : a < b) :
    (listPairs codes).countP
      (fun p => decide ((p.1 = a ∧ p.2 = b) ∨ (p.1 = b ∧ p.2 = a))) = 1 := by
  have hcongr : (listPairs codes).countP
      (fun p => decide ((p.1 = a ∧ p.2 = b) ∨ (p.1 = b ∧ p.2 = a)))
      = (listPairs codes).countP (fun p => decide (p = (a, b))) := by
    apply List.countP_congr
    intro p hp
    have hplt := listPairs_lt hslt p hp
    simp only [decide_eq_true_eq, Prod.ext_iff]
    constructor
    · rintro (⟨h1, h2⟩ | ⟨h1, h2⟩)
      · exact ⟨h1, h2⟩
      · subst h1; subst h2; omega
    · rintro ⟨h1, h2⟩
      exact Or.inl ⟨h1, h2⟩
  rw [hcongr]
  exact countP_eq_one_of_nodup_mem (listPairs_nodup hnd)
    (listPairs_mem_of_lt hslt ha hb hab)

/-- C6: the output of `compute_pairwise_overlap` contains exactly one record
per unordered pair of distinct funds present in the input — never both
`(a,b)` and `(b,a)` — and in every record `fund_a` precedes `fund_b` in the
order of scheme codes (the model of the lexical order pandas `groupby`
sorting induces on string keys). -/
theorem compute_pairwise_overlap_unordered_pairs (recs : List HoldingRec) :
    (∀ r ∈ compute_pairwise_overlap recs,
      r.fund_a < r.fund_b ∧
      r.fund_a ∈ recs.map (·.scheme_code) ∧
      r.fund_b ∈ recs.map (·.scheme_code)) ∧
    (∀ a b : ℕ, a ∈ recs.map (·.scheme_code) → b ∈ recs.map (·.scheme_code) →
      a ≠ b →
      (compute_pairwise_overlap recs).countP
        (fun r => decide ((r.fund_a = a ∧ r.fund_b = b) ∨
                          (r.fund_a = b ∧ r.fund_b = a))) = 1) := by
  by_cases hre : recs.isEmpty
  · have hrecs : recs = [] := List.isEmpty_iff.mp hre
    subst hrecs
    refine ⟨?_, ?_⟩
    · intro r hr; simp [compute_pairwise_overlap] at hr
    · intro a b ha; simp at ha
  · have hout : compute_pairwise_overlap recs
        = (listPairs (fundCodes recs)).map (mkOverlap recs) := by
      simp [compute_pairwise_overlap, hre]
    have hslt := fundCodes_sorted recs
    have hnd := fundCodes_nodup recs
    refine ⟨?_, ?_⟩
    · intro r hr
      rw [hout] at hr
      obtain ⟨p, hp, rfl⟩ := List.mem_map.mp hr
      obtain ⟨h1, h2⟩ := listPairs_mem_parts hp
      exact ⟨listPairs_lt hslt p hp,
        mem_fundCodes.mp h1, mem_fundCodes.mp h2⟩
    · intro a b ha hb hab
      rw [hout, List.countP_map]
      have hcomp : ∀ p ∈ listPairs (fundCodes recs),
          ((fun r : OverlapRecord => decide ((r.fund_a = a ∧ r.fund_b = b) ∨
              (r.fund_a = b ∧ r.fund_b = a))) ∘ mkOverlap recs) p
          = (fun p : ℕ × ℕ => decide ((p.1 = a ∧ p.2 = b) ∨
              (p.1 = b ∧ p.2 = a))) p := by
        intro p _
        simp [Function.comp, mkOverlap]
      rw [List.countP_congr (fun p hp => by rw [hcomp p hp])]
      rcases Nat.lt_or_ge a b with h | h
      · exact countP_listPairs_eq_one hslt hnd
          (mem_fundCodes.mpr ha) (mem_fundCodes.mpr hb) h
      · have hba : b < a := lt_of_le_of_ne h (fun heq => hab heq.symm)
        have := countP_listPairs_eq_one hslt hnd
          (mem_fundCodes.mpr hb) (mem_fundCodes.mpr ha) hba
        rw [← this]
        apply List.countP_congr
        intro p hp
        simp only [decide_eq_true_eq]
        tauto

/-- Witness for C6 at a concrete two-fund input. -/
theorem compute_pairwise_overlap_unordered_pairs_witness :
    (compute_pairwise_overlap
      [⟨1, 101, 30⟩, ⟨2, 102, 20⟩]).countP
        (fun r => decide ((r.fund_a = 2 ∧ r.fund_b = 1) ∨
                          (r.fund_a = 1 ∧ r.fund_b = 2))) = 1 :=
  (compute_pairwise_overlap_unordered_pairs
    [⟨1, 101, 30⟩, ⟨2, 102, 20⟩]).2 2 1 (by decide) (by decide) (by decide)

/-- The concrete two-fund holdings collection of the spec's overlap test:
fund 1 (A) holds {101:30, 102:40, 103:30}, fund 2 (B) holds
{102:20, 103:50, 104:30}. -/
def exampleHoldings : List HoldingRec :=
  [⟨1, 101, 30⟩, ⟨1, 102, 40⟩, ⟨1, 103, 30⟩,
   ⟨2, 102, 20⟩, ⟨2, 103, 50⟩, ⟨2, 104, 30⟩]

/-- A minimal two-fund holdings collection used as a concrete witness. -/
def smallHoldings : List HoldingRec := [⟨1, 101, 30⟩, ⟨2, 102, 20⟩]

/-- C5: every output record of `compute_pairwise_overlap` carries
`jaccard = |A ∩ B| / |A ∪ B|` of the two funds' ISIN sets (`0` if the union
is empty), `weighted_overlap_pct = Σ over A ∩ B of min(weight_a, weight_b)`,
and `common_stocks = |A ∩ B|`, with the two rational fields rounded to four
decimal places; the spec's concrete example produces jaccard `1/2`, weighted
overlap `50`, common stocks `2`, and an empty holdings collection produces
an empty result. -/
theorem compute_pairwise_overlap_fields :
    (∀ (recs : List HoldingRec) (r : OverlapRecord),
      r ∈ compute_pairwise_overlap recs →
      r.common_stocks =
        ((fundIsins recs r.fund_a).toFinset ∩ (fundIsins recs r.fund_b).toFinset).card ∧
      r.jaccard_overlap = round4
        (if (fundIsins recs r.fund_a).toFinset ∪ (fundIsins recs r.fund_b).toFinset = ∅
         then 0
         else (((fundIsins recs r.fund_a).toFinset ∩ (fundIsins recs r.fund_b).toFinset).card : ℚ)
           / (((fundIsins recs r.fund_a).toFinset ∪ (fundIsins recs r.fund_b).toFinset).card : ℚ)) ∧
      r.weighted_overlap_pct = round4
        (((fundIsins recs r.fund_a).toFinset ∩ (fundIsins recs r.fund_b).toFinset).sum
          (fun i => min (fundWeight recs r.fund_a i) (fundWeight recs r.fund_b i)))) ∧
    compute_pairwise_overlap [] = [] ∧
    compute_pairwise_overlap exampleHoldings =
      [{ fund_a := 1, fund_b := 2, jaccard_overlap := 1 / 2,
         weighted_overlap_pct := 50, common_stocks := 2 }] := by
  refine ⟨?_, by simp [compute_pairwise_overlap], ?_⟩
  · intro recs r hr
    by_cases hre : recs.isEmpty
    · simp [compute_pairwise_overlap, hre] at hr
    · rw [compute_pairwise_overlap, if_neg hre] at hr
      obtain ⟨p, hp, rfl⟩ := List.mem_map.mp hr
      have hfa : (mkOverlap recs p).fund_a = p.1 := rfl
      have hfb : (mkOverlap recs p).fund_b = p.2 := rfl
      rw [hfa, hfb]
      set A := fundIsins recs p.1 with hA
      set B := fundIsins recs p.2 with hB
      have hAnd : A.Nodup := List.nodup_dedup _
      have hInterNd : (A.filter (fun i => i ∈ B)).Nodup := hAnd.filter _
      have hIT : (A.filter (fun i => i ∈ B)).toFinset = A.toFinset ∩ B.toFinset := by
        ext i
        simp [List.mem_filter]
      have hIlen : (A.filter (fun i => i ∈ B)).length
          = (A.toFinset ∩ B.toFinset).card := by
        rw [← hIT, List.toFinset_card_of_nodup hInterNd]
      have hUlen : ((A ++ B).dedup).length = (A.toFinset ∪ B.toFinset).card := by
        rw [← List.toFinset_append]
        exact (List.card_toFinset (A ++ B)).symm
      have hWsum : ((A.filter (fun i => i ∈ B)).map
            (fun i => min (fundWeight recs p.1 i) (fundWeight recs p.2 i))).sum
          = (A.toFinset ∩ B.toFinset).sum
              (fun i => min (fundWeight recs p.1 i) (fundWeight recs p.2 i)) := by
        rw [← hIT, List.sum_toFinset _ hInterNd]
      refine ⟨?_, ?_, ?_⟩
      · simpa [mkOverlap] using hIlen
      · show round4 _ = round4 _
        congr 1
        by_cases hu : ((A ++ B).dedup).length = 0
        · rw [if_pos hu, if_pos (Finset.card_eq_zero.mp (hUlen ▸ hu))]
        · rw [if_neg hu, if_neg fun he => hu (by rw [hUlen, he, Finset.card_empty])]
          rw [hIlen, hUlen]
      · show round4 _ = round4 _
        congr 1
  · have hne : ¬ (exampleHoldings.isEmpty = true) := by decide
    have hcodes : fundCodes exampleHoldings = [1, 2] := by decide
    rw [compute_pairwise_overlap, if_neg hne, hcodes]
    have hmap : listPairs [1, 2] = [((1 : ℕ), (2 : ℕ))] := rfl
    rw [hmap, List.map_cons, List.map_nil]
    have hA : fundIsins exampleHoldings 1 = [101, 102, 103] := by decide
    have hB : fundIsins exampleHoldings 2 = [102, 103, 104] := by decide
    have hint : ([101, 102, 103] : List ℕ).filter
        (fun i => i ∈ ([102, 103, 104] : List ℕ)) = [102, 103] := by decide
    have huni : (([101, 102, 103] : List ℕ) ++ [102, 103, 104]).dedup
        = [101, 102, 103, 104] := by decide
    have hw1 : fundWeight exampleHoldings 1 102 = 40 := rfl
    have hw2 : fundWeight exampleHoldings 2 102 = 20 := rfl
    have hw3 : fundWeight exampleHoldings 1 103 = 30 := rfl
    have hw4 : fundWeight exampleHoldings 2 103 = 50 := rfl
    simp only [mkOverlap, hA, hB, hint, huni, List.map_cons, List.map_nil,
      hw1, hw2, hw3, hw4, List.length_cons, List.length_nil, List.sum_cons,
      List.sum_nil, OverlapRecord.mk.injEq]
    norm_num [round4, round_eq, min_def]

/-- Witness for C5 on a concrete record of a concrete holdings input. -/
theorem compute_pairwise_overlap_fields_witness :
    (mkOverlap smallHoldings (1, 2)).common_stocks =
      ((fundIsins smallHoldings (mkOverlap smallHoldings (1, 2)).fund_a).toFinset ∩
       (fundIsins smallHoldings (mkOverlap smallHoldings (1, 2)).fund_b).toFinset).card :=
  (compute_pairwise_overlap_fields.1 smallHoldings (mkOverlap smallHoldings (1, 2))
    (by
      rw [compute_pairwise_overlap, if_neg (by decide)]
      have hcodes : fundCodes smallHoldings = [1, 2] := by decide
      rw [hcodes]
      simp [listPairs])).1

/-! ### metrics_engine.py — compute_all_metrics (aggregation contract)

The source's `compute_all_metrics` is an unimplemented placeholder (it logs
a warning and returns `[]`, with a TODO referencing
`specs/tool_metrics_engine.md`); §4.1/§9 of the specification define its
intended contract, which is modelled here. -/

/-- A ledger transaction as consumed by the metrics aggregation. -/
structure Txn where
  scheme_name : ℕ
  txn_date : ℤ
  amount : ℚ
  units : ℚ

/-- One NAV observation of the price history. -/
structure PriceRec where
  scheme_name : ℕ
  as_of_date : ℤ
  price : ℚ

/-- The eight metric fields of a `MetricRecord`; `none` models a null/absent
value. -/
structure MetricFields where
  xirr : Option ℚ
  cagr : Option ℚ
  sharpe : Option ℚ
  sortino : Option ℚ
  beta : Option ℚ
  alpha : Option ℚ
  max_drawdown : Option ℚ
  volatility : Option ℚ
deriving DecidableEq

/-- All metric fields null. -/
def nullMetricFields : MetricFields :=
  { xirr := none, cagr := none, sharpe := none, sortino := none,
    beta := none, alpha := none, max_drawdown := none, volatility := none }

/-- One output record of the metrics aggregation: the fund identity plus
the metric fields. -/
structure MetricRecord where
  scheme_name : ℕ
  metrics : MetricFields

/-- Modelled from the spec: the aggregation contract of
`compute_all_metrics` (§4.1), whose source body is a placeholder.  It
groups transactions and price history by fund identity and emits exactly
one record per fund appearing in either input: a fund with sufficient data
(at least 2 price observations and at least 1 cash flow) gets metric values
computed from its own slice of the inputs — the per-fund metric computation
is abstracted as the parameter `metricsOf` since §9 leaves its benchmark
series an open configuration choice, and no claim checked here depends on
the computed values — while a fund with insufficient data gets a record
with the identity field populated and every metric field null; no fund is
omitted. -/
def compute_all_metrics (metricsOf : List Txn → List PriceRec → MetricFields)
    (transactions : List Txn) (nav_records : List PriceRec) : List MetricRecord :=
  (((transactions.map (·.scheme_name)) ++ (nav_records.map (·.scheme_name))).dedup).map
    (fun f =>
      let ftx := transactions.filter (fun t => t.scheme_name = f)
      let fpx := nav_records.filter (fun p => p.scheme_name = f)
      if 2 ≤ fpx.length ∧ 1 ≤ ftx.length then
        { scheme_name := f, metrics := metricsOf ftx fpx }
      else
        { scheme_name := f, metrics := nullMetricFields })

/-- C1: `compute_all_metrics` returns exactly one metric record per fund
appearing in the transaction/price inputs (distinct identities, and a fund
has a record iff it appears in some input), and a fund with insufficient
data — fewer than 2 price observations or no cash flow — still yields a
record, with the identity field populated and all metric fields null. -/
theorem compute_all_metrics_record_per_fund
    (metricsOf : List Txn → List PriceRec → MetricFields)
    (tx : List Txn) (px : List PriceRec) :
    ((compute_all_metrics metricsOf tx px).map (·.scheme_name)).Nodup ∧
    (∀ f : ℕ,
      (∃ r ∈ compute_all_metrics metricsOf tx px, r.scheme_name = f) ↔
      ((∃ t ∈ tx, t.scheme_name = f) ∨ (∃ p ∈ px, p.scheme_name = f))) ∧
    (∀ r ∈ compute_all_metrics metricsOf tx px,
      ((px.filter (fun p => p.scheme_name = r.scheme_name)).length < 2 ∨
        tx.filter (fun t => t.scheme_name = r.scheme_name) = []) →
      r.metrics = nullMetricFields) := by
  set F : ℕ → MetricRecord := fun f =>
    let ftx := tx.filter (fun t => t.scheme_name = f)
    let fpx := px.filter (fun p => p.scheme_name = f)
    if 2 ≤ fpx.length ∧ 1 ≤ ftx.length then
      { scheme_name := f, metrics := metricsOf ftx fpx }
    else
      { scheme_name := f, metrics := nullMetricFields }
    with hF
  have hout : compute_all_metrics metricsOf tx px
      = (((tx.map (·.scheme_name)) ++ (px.map (·.scheme_name))).dedup).map F := rfl
  have hFname : ∀ f, (F f).scheme_name = f := by
    intro f
    rw [hF]
    dsimp only
    split <;> rfl
  refine ⟨?_, ?_, ?_⟩
  · rw [hout, List.map_map]
    have : ((·.scheme_name) ∘ F) = id := by
      funext f
      exact hFname f
    rw [this, List.map_id]
    exact List.nodup_dedup _
  · intro f
    rw [hout]
    constructor
    · rintro ⟨r, hr, rfl⟩
      obtain ⟨g, hg, rfl⟩ := List.mem_map.mp hr
      rw [hFname g]
      rcases List.mem_append.mp (List.mem_dedup.mp hg) with h | h
      · obtain ⟨t, ht, htn⟩ := List.mem_map.mp h
        exact Or.inl ⟨t, ht, htn⟩
      · obtain ⟨p, hp, hpn⟩ := List.mem_map.mp h
        exact Or.inr ⟨p, hp, hpn⟩
    · intro h
      refine ⟨F f, List.mem_map.mpr ⟨f, ?_, rfl⟩, hFname f⟩
      rw [List.mem_dedup, List.mem_append]
      rcases h with ⟨t, ht, htn⟩ | ⟨p, hp, hpn⟩
      · exact Or.inl (List.mem_map.mpr ⟨t, ht, htn⟩)
      · exact Or.inr (List.mem_map.mpr ⟨p, hp, hpn⟩)
  · intro r hr hcond
    rw [hout] at hr
    obtain ⟨f, hf, rfl⟩ := List.mem_map.mp hr
    rw [hFname f] at hcond
    rw [hF]
    dsimp only
    split
    · rename_i hc
      exfalso
      rcases hcond with h | h
      · omega
      · rw [h] at hc
        simp at hc
    · rfl

/-- Witness for C1: a fund with one transaction and no price history — thus
insufficient data — still gets a record, with all metric fields null. -/
theorem compute_all_metrics_record_per_fund_witness :
    (∃ r ∈ compute_all_metrics (fun _ _ => nullMetricFields)
        [{ scheme_name := 7, txn_date := 0, amount := 100, units := 10 }] [],
      r.scheme_name = 7) ∧
    (∀ r ∈ compute_all_metrics (fun _ _ => nullMetricFields)
        [{ scheme_name := 7, txn_date := 0, amount := 100, units := 10 }] [],
      (([] : List PriceRec).filter (fun p => p.scheme_name = r.scheme_name)).length < 2 →
      r.metrics = nullMetricFields) := by
  have h := compute_all_metrics_record_per_fund (fun _ _ => nullMetricFields)
    [{ scheme_name := 7, txn_date := 0, amount := 100, units := 10 }] []
  refine ⟨(h.2.1 7).mpr
    (Or.inl ⟨{ scheme_name := 7, txn_date := 0, amount := 100, units := 10 },
      by simp, rfl⟩), fun r hr hlen => ?_⟩
  exact h.2.2 r hr (Or.inl hlen)

/-! ### tax_engine.py — compute_tax_liability (FIFO tax-lot matcher)

The source's `compute_tax_liability` is an unimplemented placeholder (it
logs a warning and returns `[]`, with a TODO referencing
`specs/tool_tax_engine.md`); §4.2 of the specification defines the FIFO
matching state machine modelled here. -/

/-- Transaction types of the ledger data model (§3). -/
inductive TxnType where
  | Purchase
  | SIP
  | Redemption
  | SwitchIn
  | SwitchOut
deriving DecidableEq

/-- Buy-type transactions create lots; the rest (Redemption, Switch-Out)
consume them. -/
def isBuyType : TxnType → Bool
  | .Purchase => true
  | .SIP => true
  | .SwitchIn => true
  | _ => false

/-- A ledger transaction as consumed by the tax-lot matcher.  `units` is
signed (negative for redemptions); `nav` is the price per unit at the
transaction. -/
structure LedgerTxn where
  folio : ℕ
  scheme : ℕ
  txn_date : ℤ
  txn_type : TxnType
  amount : ℚ
  units : ℚ
  nav : ℚ

/-- An open tax lot (§3): open date, units still unmatched, cost per
unit. -/
structure TaxLot where
  open_date : ℤ
  units_remaining : ℚ
  cost_per_unit : ℚ

/-- A realized-gain event, one per (lot, redemption) pairing (§3/§4.2). -/
structure TaxEvent where
  folio : ℕ
  scheme : ℕ
  redemption_date : ℤ
  units : ℚ
  cost_basis : ℚ
  redemption_value : ℚ
  gain : ℚ
  gain_type : String

/-- The TaxEvent emitted when `m` units of `lot` are matched against a
redemption at date `rdate` and NAV `nav` (§4.2): cost basis
`m · cost_per_unit`, redemption value `m · nav`, gain their difference,
classification by `classify_holding` on the lot's open date. -/
def mkTaxEvent (folio scheme : ℕ) (rdate : ℤ) (nav : ℚ) (equity : Bool)
    (lot : TaxLot) (m : ℚ) : TaxEvent :=
  { folio := folio
    scheme := scheme
    redemption_date := rdate
    units := m
    cost_basis := m * lot.cost_per_unit
    redemption_value := m * nav
    gain := m * nav - m * lot.cost_per_unit
    gain_type := classify_holding lot.open_date rdate equity }

/-- Consume `need` units from the front of the lot queue (§4.2): each lot
matches `min(units_remaining, need)` units; a lot drained to zero is
removed; if the queue empties first the whole redemption fails with
`InsufficientLotsError` carrying the unmatched quantity. -/
def consumeLots (folio scheme : ℕ) (rdate : ℤ) (nav : ℚ) (equity : Bool) :
    List TaxLot → ℚ → Except CoreError (List TaxEvent × List TaxLot)
  | [], need =>
    if need ≤ 0 then .ok ([], []) else .error (.insufficientLots folio scheme need)
  | lot :: rest, need =>
    if need ≤ 0 then .ok ([], lot :: rest)
    else if need < lot.units_remaining then
      .ok ([mkTaxEvent folio scheme rdate nav equity lot need],
        { lot with units_remaining := lot.units_remaining - need } :: rest)
    else
      match consumeLots folio scheme rdate nav equity rest
          (need - lot.units_remaining) with
      | .error e => .error e
      | .ok (evs, rem) =>
        .ok (mkTaxEvent folio scheme rdate nav equity lot lot.units_remaining
          :: evs, rem)

/-- The lot a buy-type transaction opens (§4.2): `units_remaining` the
transaction's units, `cost_per_unit = amount / units`. -/
def mkLot (t : LedgerTxn) : TaxLot :=
  { open_date := t.txn_date
    units_remaining := t.units
    cost_per_unit := t.amount / t.units }

/-- Pointwise update of the per-(folio, scheme) lot-queue map. -/
def updateLots (st : ℕ × ℕ → List TaxLot) (k : ℕ × ℕ) (v : List TaxLot) :
    ℕ × ℕ → List TaxLot :=
  fun k2 => if k2 = k then v else st k2

/-- One transition of the matcher (§4.2): a buy-type transaction pushes a
new lot onto its key's queue (failing with `InvalidInputError` on zero
units); any other transaction consumes from the front of its key's
queue. -/
def stepTxn (equityOf : ℕ → Bool) (st : ℕ × ℕ → List TaxLot) (t : LedgerTxn) :
    Except CoreError ((ℕ × ℕ → List TaxLot) × List TaxEvent) :=
  if isBuyType t.txn_type then
    if t.units = 0 then .error (.invalidInput "zero-units lot creation")
    else .ok (updateLots st (t.folio, t.scheme)
      (st (t.folio, t.scheme) ++ [mkLot t]), [])
  else
    match consumeLots t.folio t.scheme t.txn_date t.nav (equityOf t.scheme)
        (st (t.folio, t.scheme)) |t.units| with
    | .error e => .error e
    | .ok (evs, rem) => .ok (updateLots st (t.folio, t.scheme) rem, evs)

/-- Run the matcher over a transaction list, threading the lot-queue map
and concatenating emitted events; any error aborts the whole run. -/
def runMatcher (equityOf : ℕ → Bool) :
    (ℕ × ℕ → List TaxLot) → List LedgerTxn → Except CoreError (List TaxEvent)
  | _, [] => .ok []
  | st, t :: ts =>
    match stepTxn equityOf st t with
    | .error e => .error e
    | .ok (st2, evs) =>
      match runMatcher equityOf st2 ts with
      | .error e => .error e
      | .ok rest => .ok (evs ++ rest)

/-- Modelled from the spec: `compute_tax_liability` in
`tools/tax_engine.py` is an unimplemented placeholder (its body returns
`[]` with a TODO); §4.2 defines the FIFO matching this definition follows:
per-(folio, scheme) lot queues seeded from the chronologically ordered
transaction list, buy-type transactions pushing lots, sell-type
transactions consuming lots from the front of their key's queue, emitting
one TaxEvent per (lot, redemption) pairing, and failing with
`InsufficientLotsError` (never a silent partial result) when lots are
exhausted.  The equity/debt classification input, which the spec leaves to
fund metadata, is the parameter `equityOf`. -/
def compute_tax_liability (equityOf : ℕ → Bool) (txns : List LedgerTxn) :
    Except CoreError (List TaxEvent) :=
  runMatcher equityOf (fun _ => []) txns

/-- The lot queue that a list of buy transactions builds for key `k`, in
transaction order. -/
def lotsFor (k : ℕ × ℕ) (bs : List LedgerTxn) : List TaxLot :=
  (bs.filter (fun b => (b.folio, b.scheme) = k)).map mkLot

/-- Total unmatched units in a lot queue. -/
def sumUnits (lots : List TaxLot) : ℚ := (lots.map (·.units_remaining)).sum

theorem sumUnits_nil : sumUnits [] = 0 := rfl

theorem sumUnits_cons (lot : TaxLot) (rest : List TaxLot) :
    sumUnits (lot :: rest) = lot.units_remaining + sumUnits rest := by
  simp [sumUnits]

theorem sumUnits_nonneg {lots : List TaxLot}
    (h : ∀ l ∈ lots, 0 < l.units_remaining) : 0 ≤ sumUnits lots := by
  apply List.sum_nonneg
  intro x hx
  obtain ⟨l, hl, rfl⟩ := List.mem_map.mp hx
  exact (h l hl).le

theorem consumeLots_err (folio scheme : ℕ) (rdate : ℤ) (nav : ℚ) (equity : Bool) :
    ∀ (lots : List TaxLot) (need : ℚ),
      (∀ l ∈ lots, 0 < l.units_remaining) →
      sumUnits lots < need →
      consumeLots folio scheme rdate nav equity lots need
        = .error (.insufficientLots folio scheme (need - sumUnits lots)) := by
  intro lots
  induction lots with
  | nil =>
    intro need _ hlt
    rw [sumUnits_nil] at hlt
    rw [consumeLots, if_neg (by linarith), sumUnits_nil, sub_zero]
  | cons lot rest ih =>
    intro need hpos hlt
    have hl0 : 0 < lot.units_remaining := hpos lot (List.mem_cons_self _ _)
    have hrest : ∀ l ∈ rest, 0 < l.units_remaining :=
      fun l hl => hpos l (List.mem_cons_of_mem _ hl)
    have hrest0 : 0 ≤ sumUnits rest := sumUnits_nonneg hrest
    rw [sumUnits_cons] at hlt
    have hneed0 : ¬ need ≤ 0 := by linarith
    have hneedlt : ¬ need < lot.units_remaining := by linarith
    rw [consumeLots, if_neg hneed0, if_neg hneedlt,
      ih (need - lot.units_remaining) hrest (by linarith)]
    rw [sumUnits_cons, sub_sub]

/-- Success characterization of `consumeLots`: if the queue holds enough
units, matching succeeds, the matched units sum to `need`, and consumption
is strictly front-first — the first `k` lots are consumed in full (one
event each, in order), followed by at most one split consumption of lot
`k`, whose remainder stays at the front of the queue. -/
theorem consumeLots_ok (folio scheme : ℕ) (rdate : ℤ) (nav : ℚ) (equity : Bool) :
    ∀ (lots : List TaxLot) (need : ℚ),
      (∀ l ∈ lots, 0 < l.units_remaining) →
      0 ≤ need → need ≤ sumUnits lots →
      ∃ evs rem,
        consumeLots folio scheme rdate nav equity lots need = .ok (evs, rem) ∧
        (evs.map (·.units)).sum = need ∧
        ((∃ k, k ≤ lots.length ∧
            ((lots.take k).map (·.units_remaining)).sum = need ∧
            evs = (lots.take k).map
              (fun l => mkTaxEvent folio scheme rdate nav equity l l.units_remaining) ∧
            rem = lots.drop k) ∨
         (∃ k, ∃ hk : k < lots.length, ∃ m : ℚ,
            0 < m ∧ m < (lots.get ⟨k, hk⟩).units_remaining ∧
            ((lots.take k).map (·.units_remaining)).sum + m = need ∧
            evs = (lots.take k).map
              (fun l => mkTaxEvent folio scheme rdate nav equity l l.units_remaining)
              ++ [mkTaxEvent folio scheme rdate nav equity (lots.get ⟨k, hk⟩) m] ∧
            rem = { lots.get ⟨k, hk⟩ with
                      units_remaining := (lots.get ⟨k, hk⟩).units_remaining - m }
              :: lots.drop (k + 1))) := by
  intro lots
  induction lots with
  | nil =>
    intro need _ h0 hle
    rw [sumUnits_nil] at hle
    have hz : need = 0 := le_antisymm hle h0
    subst hz
    refine ⟨[], [], by rw [consumeLots, if_pos le_rfl], by simp, Or.inl ⟨0, ?_⟩⟩
    simp
  | cons lot rest ih =>
    intro need hpos h0 hle
    have hl0 : 0 < lot.units_remaining := hpos lot (List.mem_cons_self _ _)
    have hrest : ∀ l ∈ rest, 0 < l.units_remaining :=
      fun l hl => hpos l (List.mem_cons_of_mem _ hl)
    by_cases hz : need ≤ 0
    · have hz0 : need = 0 := le_antisymm hz h0
      subst hz0
      refine ⟨[], lot :: rest, by rw [consumeLots, if_pos le_rfl], by simp,
        Or.inl ⟨0, by simp, by simp, by simp, by simp⟩⟩
    · have hzpos : 0 < need := lt_of_not_le hz
      by_cases hlt : need < lot.units_remaining
      · refine ⟨[mkTaxEvent folio scheme rdate nav equity lot need],
          { lot with units_remaining := lot.units_remaining - need } :: rest,
          by rw [consumeLots, if_neg hz, if_pos hlt], by simp [mkTaxEvent],
          Or.inr ⟨0, by simp, need, hzpos, hlt, by simp, by simp, by simp⟩⟩
      · have hul : lot.units_remaining ≤ need := le_of_not_lt hlt
        have h0r : 0 ≤ need - lot.units_remaining := by linarith
        have hler : need - lot.units_remaining ≤ sumUnits rest := by
          rw [sumUnits_cons] at hle; linarith
        obtain ⟨evs, rem, heq, hsum, hdec⟩ :=
          ih (need - lot.units_remaining) hrest h0r hler
        refine ⟨mkTaxEvent folio scheme rdate nav equity lot lot.units_remaining
          :: evs, rem, by rw [consumeLots, if_neg hz, if_neg hlt, heq], ?_, ?_⟩
        · simp only [List.map_cons, List.sum_cons, hsum, mkTaxEvent]
          ring
        · rcases hdec with ⟨k, hk, hsumk, hevs, hrem⟩ |
            ⟨k, hk, m, hm0, hmlt, hsumk, hevs, hrem⟩
          · left
            refine ⟨k + 1, by simpa using Nat.succ_le_succ hk, ?_, ?_, ?_⟩
            · rw [List.take_succ_cons, List.map_cons, List.sum_cons, hsumk]
              ring
            · rw [List.take_succ_cons, List.map_cons, hevs]
            · rw [List.drop_succ_cons, hrem]
          · right
            refine ⟨k + 1, by simpa using Nat.succ_lt_succ hk, m, hm0, ?_, ?_, ?_, ?_⟩
            · simpa using hmlt
            · rw [List.take_succ_cons, List.map_cons, List.sum_cons]
              rw [add_assoc, hsumk]
              ring
            · rw [List.take_succ_cons, List.map_cons, hevs]
              simp
            · rw [List.drop_succ_cons]
              rw [hrem]
              rfl

theorem runMatcher_cons_buy (equityOf : ℕ → Bool) (st : ℕ × ℕ → List TaxLot)
    (t : LedgerTxn) (ht : isBuyType t.txn_type = true) (hu : t.units ≠ 0)
    (ts : List LedgerTxn) :
    runMatcher equityOf st (t :: ts)
      = runMatcher equityOf
          (updateLots st (t.folio, t.scheme)
            (st (t.folio, t.scheme) ++ [mkLot t])) ts := by
  rw [runMatcher, stepTxn, if_pos ht, if_neg hu]
  dsimp only
  cases h : runMatcher equityOf
      (updateLots st (t.folio, t.scheme) (st (t.folio, t.scheme) ++ [mkLot t])) ts with
  | error e => rfl
  | ok rest => simp

theorem runMatcher_buys (equityOf : ℕ → Bool) :
    ∀ (bs : List LedgerTxn) (st : ℕ × ℕ → List TaxLot),
      (∀ b ∈ bs, isBuyType b.txn_type = true ∧ 0 < b.units) →
      ∀ ts, runMatcher equityOf st (bs ++ ts)
        = runMatcher equityOf (fun k => st k ++ lotsFor k bs) ts := by
  intro bs
  induction bs with
  | nil =>
    intro st _ ts
    have h : (fun k => st k ++ lotsFor k []) = st := by
      funext k
      simp [lotsFor]
    rw [h, List.nil_append]
  | cons b bs ih =>
    intro st hb ts
    obtain ⟨hbt, hbu⟩ := hb b (List.mem_cons_self _ _)
    rw [List.cons_append, runMatcher_cons_buy equityOf st b hbt (ne_of_gt hbu),
      ih _ (fun x hx => hb x (List.mem_cons_of_mem _ hx)) ts]
    congr 1
    funext k
    by_cases hk : k = (b.folio, b.scheme)
    · subst hk
      rw [updateLots, if_pos rfl]
      have hfil : lotsFor (b.folio, b.scheme) (b :: bs)
          = mkLot b :: lotsFor (b.folio, b.scheme) bs := by
        rw [lotsFor, lotsFor, List.filter_cons_of_pos (by simp), List.map_cons]
      rw [hfil, List.append_assoc, List.singleton_append]
    · rw [updateLots, if_neg hk]
      have hfil : lotsFor k (b :: bs) = lotsFor k bs := by
        have hfalse : ¬ ((b.folio, b.scheme) = k) := fun h => hk h.symm
        rw [lotsFor, lotsFor, List.filter_cons_of_neg (by simpa using hfalse)]
      rw [hfil]

/-- C2: for a chronologically ordered sequence of valid buy-type
transactions followed by one redemption, the lot queue of the redemption's
(folio, scheme) key is the buys of that key in date order; if the
redemption's unit quantity is covered by the queue, `compute_tax_liability`
succeeds with TaxEvents whose matched units sum exactly to that quantity,
consumed strictly front-first (= oldest-open-date-first): the first `k`
lots in full, then at most one split lot; if the queue cannot cover it, the
whole computation fails with `InsufficientLotsError` naming the folio,
scheme and unmatched quantity — never a partial result. -/
theorem compute_tax_liability_fifo (equityOf : ℕ → Bool)
    (buys : List LedgerTxn) (red : LedgerTxn)
    (hbuys : ∀ b ∈ buys, isBuyType b.txn_type = true ∧ 0 < b.units)
    (hred : red.txn_type = TxnType.Redemption)
    (hchron : ((buys ++ [red]).map (·.txn_date)).Sorted (· ≤ ·)) :
    (((lotsFor (red.folio, red.scheme) buys).map (·.open_date)).Sorted (· ≤ ·)) ∧
    (|red.units| ≤ sumUnits (lotsFor (red.folio, red.scheme) buys) →
      ∃ evs,
        compute_tax_liability equityOf (buys ++ [red]) = .ok evs ∧
        (evs.map (·.units)).sum = |red.units| ∧
        ((∃ k, k ≤ (lotsFor (red.folio, red.scheme) buys).length ∧
            (((lotsFor (red.folio, red.scheme) buys).take k).map (·.units_remaining)).sum
              = |red.units| ∧
            evs = ((lotsFor (red.folio, red.scheme) buys).take k).map
              (fun l => mkTaxEvent red.folio red.scheme red.txn_date red.nav
                (equityOf red.scheme) l l.units_remaining)) ∨
         (∃ k, ∃ hk : k < (lotsFor (red.folio, red.scheme) buys).length, ∃ m : ℚ,
            0 < m ∧
            m < ((lotsFor (red.folio, red.scheme) buys).get ⟨k, hk⟩).units_remaining ∧
            (((lotsFor (red.folio, red.scheme) buys).take k).map (·.units_remaining)).sum
              + m = |red.units| ∧
            evs = ((lotsFor (red.folio, red.scheme) buys).take k).map
              (fun l => mkTaxEvent red.folio red.scheme red.txn_date red.nav
                (equityOf red.scheme) l l.units_remaining)
              ++ [mkTaxEvent red.folio red.scheme red.txn_date red.nav
                (equityOf red.scheme)
                ((lotsFor (red.folio, red.scheme) buys).get ⟨k, hk⟩) m]))) ∧
    (sumUnits (lotsFor (red.folio, red.scheme) buys) < |red.units| →
      compute_tax_liability equityOf (buys ++ [red])
        = .error (.insufficientLots red.folio red.scheme
            (|red.units| - sumUnits (lotsFor (red.folio, red.scheme) buys)))) := by
  have hpos : ∀ l ∈ lotsFor (red.folio, red.scheme) buys, 0 < l.units_remaining := by
    intro l hl
    rw [lotsFor] at hl
    obtain ⟨b, hb, rfl⟩ := List.mem_map.mp hl
    exact (hbuys b (List.mem_of_mem_filter hb)).2
  have hrun : compute_tax_liability equityOf (buys ++ [red])
      = runMatcher equityOf (fun k => lotsFor k buys) [red] := by
    rw [compute_tax_liability, runMatcher_buys equityOf buys _ hbuys [red]]
    congr 1
  have hnotbuy : ¬ (isBuyType red.txn_type = true) := by
    rw [hred]
    simp [isBuyType]
  refine ⟨?_, ?_, ?_⟩
  · -- queue open dates are in chronological (ascending) order
    have h1 : (lotsFor (red.folio, red.scheme) buys).map (·.open_date)
        = (buys.filter
            (fun b => (b.folio, b.scheme) = (red.folio, red.scheme))).map (·.txn_date) := by
      rw [lotsFor, List.map_map]
      rfl
    rw [h1]
    have hsub : List.Sublist
        ((buys.filter
          (fun b => (b.folio, b.scheme) = (red.folio, red.scheme))).map (·.txn_date))
        ((buys ++ [red]).map (·.txn_date)) :=
      List.Sublist.map _ ((List.filter_sublist _).trans (List.sublist_append_left _ _))
    exact List.Pairwise.sublist hsub hchron
  · intro hle
    obtain ⟨evs, rem, heq, hsum, hdec⟩ :=
      consumeLots_ok red.folio red.scheme red.txn_date red.nav (equityOf red.scheme)
        (lotsFor (red.folio, red.scheme) buys) |red.units| hpos (abs_nonneg _) hle
    refine ⟨evs, ?_, hsum, ?_⟩
    · rw [hrun, runMatcher, stepTxn, if_neg hnotbuy]
      rw [heq]
      simp [runMatcher]
    · rcases hdec with ⟨k, hk, hsumk, hevs, _⟩ | ⟨k, hk, m, hm0, hmlt, hsumk, hevs, _⟩
      · exact Or.inl ⟨k, hk, hsumk, hevs⟩
      · exact Or.inr ⟨k, hk, m, hm0, hmlt, hsumk, hevs⟩
  · intro hlt
    rw [hrun, runMatcher, stepTxn, if_neg hnotbuy]
    rw [consumeLots_err red.folio red.scheme red.txn_date red.nav
      (equityOf red.scheme) (lotsFor (red.folio, red.scheme) buys) |red.units| hpos hlt]

/-- Witness for C2: two purchases (10 and 5 units) followed by a redemption
of 12 units on the same (folio, scheme) key succeed with matched units
summing to 12. -/
theorem compute_tax_liability_fifo_witness :
    ∃ evs,
      compute_tax_liability (fun _ => true)
        ([{ folio := 1, scheme := 5, txn_date := 0, txn_type := .Purchase,
            amount := 100, units := 10, nav := 10 },
          { folio := 1, scheme := 5, txn_date := 1, txn_type := .SIP,
            amount := 60, units := 5, nav := 12 }] ++
         [{ folio := 1, scheme := 5, txn_date := 400, txn_type := .Redemption,
            amount := -180, units := -12, nav := 15 }]) = .ok evs ∧
      (evs.map (·.units)).sum = |(-12 : ℚ)| := by
  have h := compute_tax_liability_fifo (fun _ => true)
    [{ folio := 1, scheme := 5, txn_date := 0, txn_type := .Purchase,
       amount := 100, units := 10, nav := 10 },
     { folio := 1, scheme := 5, txn_date := 1, txn_type := .SIP,
       amount := 60, units := 5, nav := 12 }]
    { folio := 1, scheme := 5, txn_date := 400, txn_type := .Redemption,
      amount := -180, units := -12, nav := 15 }
    (by
      intro b hb
      rcases List.mem_cons.mp hb with rfl | hb2
      · exact ⟨rfl, by norm_num⟩
      · rcases List.mem_cons.mp hb2 with rfl | hb3
        · exact ⟨rfl, by norm_num⟩
        · simp at hb3)
    rfl
    (by
      simp only [List.map_append, List.map_cons, List.map_nil, List.cons_append,
        List.nil_append]
      exact List.Sorted.cons (by norm_num) (List.Sorted.cons (by norm_num)
        (List.sorted_singleton _)))
  obtain ⟨evs, h1, h2, _⟩ := h.2.1 (by norm_num [lotsFor, mkLot, sumUnits])
  exact ⟨evs, h1, h2⟩

/-! ### metrics_engine.py — compute_cagr -/

/-- Function `compute_cagr(nav_start, nav_end, years)` from
`tools/metrics_engine.py`: raises `ValueError("years and nav_start must be
positive.")` — the spec's `InvalidInputError` — when `years ≤ 0` or
`nav_start ≤ 0`, otherwise returns `(nav_end / nav_start) ** (1/years) - 1`.
Inputs are exact rationals; the real power places the result in `ℝ`. -/
noncomputable def compute_cagr (nav_start nav_end years : ℚ) :
    Except CoreError ℝ :=
  if years ≤ 0 ∨ nav_start ≤ 0 then
    .error (.invalidInput "years and nav_start must be positive.")
  else
    .ok ((((nav_end : ℝ) / (nav_start : ℝ)) ^ ((1 : ℝ) / (years : ℝ))) - 1)

/-- C3: for `nav_start > 0` and `years > 0`, `compute_cagr` returns
`(nav_end/nav_start) ^ (1/years) − 1` — in particular
`compute_cagr(100, 200, 5)` lies strictly between `0.1486` and `0.1488`
(≈ 0.1487) — and for every input with `years ≤ 0` or `nav_start ≤ 0` it
fails with the invalid-input error, e.g. at `years = 0`. -/
theorem compute_cagr_spec :
    (∀ nav_start nav_end years : ℚ, 0 < nav_start → 0 < years →
      compute_cagr nav_start nav_end years
        = .ok ((((nav_end : ℝ) / (nav_start : ℝ)) ^ ((1 : ℝ) / (years : ℝ))) - 1)) ∧
    (∀ nav_start nav_end years : ℚ, years ≤ 0 ∨ nav_start ≤ 0 →
      compute_cagr nav_start nav_end years
        = .error (.invalidInput "years and nav_start must be positive.")) ∧
    (∃ v : ℝ, compute_cagr 100 200 5 = .ok v ∧ 0.1486 < v ∧ v < 0.1488) ∧
    compute_cagr 100 200 0
      = .error (.invalidInput "years and nav_start must be positive.") := by
  refine ⟨?_, ?_, ?_, ?_⟩
  · intro ns ne y hns hy
    rw [compute_cagr, if_neg (not_or.mpr ⟨not_le.mpr hy, not_le.mpr hns⟩)]
  · intro ns ne y h
    rw [compute_cagr, if_pos h]
  · refine ⟨(2 : ℝ) ^ ((1 : ℝ) / 5) - 1, ?_, ?_, ?_⟩
    · rw [compute_cagr, if_neg (by norm_num)]
      norm_num
    · have hx0 : (0 : ℝ) ≤ (2 : ℝ) ^ ((1 : ℝ) / 5) :=
        Real.rpow_nonneg (by norm_num) _
      have hx5 : ((2 : ℝ) ^ ((1 : ℝ) / 5)) ^ (5 : ℕ) = 2 := by
        rw [← Real.rpow_natCast ((2 : ℝ) ^ ((1 : ℝ) / 5)) 5,
          ← Real.rpow_mul (by norm_num : (0 : ℝ) ≤ 2)]
        norm_num
      have hlow : (1.1486 : ℝ) < (2 : ℝ) ^ ((1 : ℝ) / 5) := by
        apply lt_of_pow_lt_pow_left₀ 5 hx0
        rw [hx5]
        norm_num
      linarith
    · have hx5 : ((2 : ℝ) ^ ((1 : ℝ) / 5)) ^ (5 : ℕ) = 2 := by
        rw [← Real.rpow_natCast ((2 : ℝ) ^ ((1 : ℝ) / 5)) 5,
          ← Real.rpow_mul (by norm_num : (0 : ℝ) ≤ 2)]
        norm_num
      have hhigh : (2 : ℝ) ^ ((1 : ℝ) / 5) < 1.1488 := by
        apply lt_of_pow_lt_pow_left₀ 5 (by norm_num)
        rw [hx5]
        norm_num
      linarith
  · rw [compute_cagr, if_pos (Or.inl le_rfl)]

/-- Witness for C3 at a concrete invalid input (negative years). -/
theorem compute_cagr_spec_witness :
    compute_cagr 100 200 (-1)
      = .error (.invalidInput "years and nav_start must be positive.") :=
  compute_cagr_spec.2.1 100 200 (-1) (Or.inl (by norm_num))

end FundAgent
